/-
Verification of the PDF annotation engine of pac-grader (src/annotate.py).

The Python source is shallowly embedded:
  * pages are modelled by their verbatim-search primitive (a function from a
    query string to the list of matching bounding rectangles) plus their
    rectangular extent, mirroring the PyMuPDF page interface the code uses;
  * float coordinates are modelled as rationals, and Python's round(x, 1)
    as exact round-half-to-even on rationals;
  * Python string primitives used by the code (str.strip, str.lower,
    slicing s[:50], str.split(), re.findall of word runs, substring
    containment) are embedded as structural functions on the character list;
  * the result of ast.literal_eval on a rubric cell is modelled by the
    Cell / PyVal datatypes (list of literals, string literal, any other
    literal, or a parse failure carrying the raw cell text): the code only
    inspects the shape of the parsed value, never re-parses;
  * the filesystem / pandas / document-open effects of annotate_pdf are
    modelled by a World record of abstract primitives, and the run's outward
    effects (saved paths, created directories, whether the tick pass ran)
    are returned as data.
Definition names follow the Python source where Lean allows it.
-/
import Mathlib

/-! ## Python string primitives -/

/-- Python `str.strip()`: remove leading and trailing whitespace. -/
def pyStrip (s : String) : String :=
  String.mk (((s.data.dropWhile Char.isWhitespace).reverse.dropWhile Char.isWhitespace).reverse)

/-- Python slicing `s[:n]`: the first `n` characters. -/
def pyTake (s : String) (n : Nat) : String :=
  String.mk (s.data.take n)

/-- ASCII lowercase of one character, as Python `str.lower()` acts on the
ASCII letters appearing in the stoplist comparisons. -/
def pyCharLower (c : Char) : Char :=
  match c with
  | 'A' => 'a' | 'B' => 'b' | 'C' => 'c' | 'D' => 'd' | 'E' => 'e'
  | 'F' => 'f' | 'G' => 'g' | 'H' => 'h' | 'I' => 'i' | 'J' => 'j'
  | 'K' => 'k' | 'L' => 'l' | 'M' => 'm' | 'N' => 'n' | 'O' => 'o'
  | 'P' => 'p' | 'Q' => 'q' | 'R' => 'r' | 'S' => 's' | 'T' => 't'
  | 'U' => 'u' | 'V' => 'v' | 'W' => 'w' | 'X' => 'x' | 'Y' => 'y'
  | 'Z' => 'z' | c => c

/-- Python `str.lower()`. -/
def pyLower (s : String) : String :=
  String.mk (s.data.map pyCharLower)

/-- Auxiliary for `pySplitWs`: accumulate the current (reversed) word. -/
def splitWsAux : List Char → List Char → List String
  | [], cur => if cur = [] then [] else [String.mk cur.reverse]
  | c :: cs, cur =>
    if c.isWhitespace then
      if cur = [] then splitWsAux cs []
      else String.mk cur.reverse :: splitWsAux cs []
    else splitWsAux cs (c :: cur)

/-- Python `str.split()` with no argument: whitespace-separated words,
empty strings discarded. -/
def pySplitWs (s : String) : List String :=
  splitWsAux s.data []

/-- A word character in the sense of the regex `\w` (ASCII reading). -/
def isWordChar (c : Char) : Bool :=
  c.isAlphanum || c = '_'

/-- Auxiliary for `tokenize`: accumulate the current (reversed) token. -/
def tokensAux : List Char → List Char → List String
  | [], cur => if cur = [] then [] else [String.mk cur.reverse]
  | c :: cs, cur =>
    if isWordChar c then tokensAux cs (c :: cur)
    else if cur = [] then tokensAux cs []
    else String.mk cur.reverse :: tokensAux cs []

/-- Python `re.findall(r'\b\w+\b', s)`: the maximal runs of word characters. -/
def tokenize (s : String) : List String :=
  tokensAux s.data []

/-- Python `needle in hay` on strings: substring containment. -/
def strContainsSub (hay needle : String) : Bool :=
  hay.data.tails.any fun t => needle.data.isPrefixOf t

/-! ## Rounding

Python's `round(x, 1)` rounds to one decimal, ties to even. -/

/-- Round a rational to the nearest integer, ties to the even integer
(Python banker's rounding). -/
def roundHalfEven (q : ℚ) : ℤ :=
  if q - ⌊q⌋ < 1/2 then ⌊q⌋
  else if 1/2 < q - ⌊q⌋ then ⌊q⌋ + 1
  else if 2 ∣ ⌊q⌋ then ⌊q⌋ else ⌊q⌋ + 1

/-- Python `round(q, 1)`: round to one decimal place. -/
def pyRound1 (q : ℚ) : ℚ :=
  (roundHalfEven (10 * q) : ℚ) / 10

/-! ## Pages and documents -/

/-- A bounding rectangle returned by the page search primitive
(`fitz.Rect`: x0, y0, x1, y1). -/
structure Rect where
  x0 : ℚ
  y0 : ℚ
  x1 : ℚ
  y1 : ℚ
deriving DecidableEq

/-- A PDF page, modelled by the primitives `annotate.py` uses: the verbatim
search `page.search_for(text, clip=page.rect)` (list of match rectangles,
in order) and the page extent `page.rect`. -/
structure Page where
  searchFor : String → List Rect
  width : ℚ
  height : ℚ

instance : Inhabited Page := ⟨⟨fun _ => [], 0, 0⟩⟩

/-! ## Rubric cells (`ast.literal_eval` results) -/

/-- The shape of a Python literal as far as `annotate.py` inspects it. -/
inductive PyVal where
  | vstr (s : String)
  | vlist (xs : List PyVal)
  | vother

/-- A rubric cell together with the outcome of `ast.literal_eval` on it:
`ok v raw` when parsing the raw cell text succeeds with literal `v`,
`err raw` when it raises `ValueError`/`SyntaxError`. -/
inductive Cell where
  | ok (v : PyVal) (raw : String)
  | err (raw : String)

/-- The flat lines contributed by one `correct_lines` cell
(`annotate_correct_lines`, flattening loop): a parsed list keeps its
non-empty stripped string elements in order; a parsed string is kept
stripped if non-empty; any other parsed literal is skipped; a cell that
fails to parse falls back to the raw text, stripped, if non-empty. -/
def cellLines : Cell → List String
  | .ok (.vlist xs) _ =>
    xs.filterMap fun v =>
      match v with
      | .vstr s => if pyStrip s = "" then none else some (pyStrip s)
      | _ => none
  | .ok (.vstr s) _ => if pyStrip s = "" then [] else [pyStrip s]
  | .ok .vother _ => []
  | .err raw => if pyStrip raw = "" then [] else [pyStrip raw]

/-- One step of the flattening loop: append the cell's lines. -/
def flattenStep (acc : List String) (c : Cell) : List String :=
  acc ++ cellLines c

/-- The flattening loop of `annotate_correct_lines` over all cells. -/
def flattenLines (cells : List Cell) : List String :=
  cells.foldl flattenStep []

/-- The phrases one `correct_words` cell contributes in
`underline_correct_words`: only a cell parsed as a literal list is used;
a parse failure or a non-list literal is skipped entirely. -/
def cellUnderlinePhrases : Cell → List String
  | .ok (.vlist xs) _ =>
    xs.filterMap fun v =>
      match v with
      | .vstr s => some s
      | _ => none
  | _ => []

/-- Underlines drawn for one phrase: strip it, skip if empty, otherwise a
stroke just below every verbatim occurrence (`(x0, x1, y1 + 2)`). -/
def underlinesForPhrase (pg : Page) (phrase : String) : List (ℚ × ℚ × ℚ) :=
  if pyStrip phrase = "" then []
  else (pg.searchFor (pyStrip phrase)).map fun r => (r.x0, r.x1, r.y1 + 2)

/-- `underline_correct_words(page, correct_words, page_num)`: the underline
strokes drawn on the page. -/
def underline_correct_words (pg : Page) (cells : List Cell) : List (ℚ × ℚ × ℚ) :=
  (cells.map fun c =>
    ((cellUnderlinePhrases c).map fun w => underlinesForPhrase pg w).flatten).flatten

/-! ## The correct-lines tick pass -/

/-- A tick glyph drawn on a page, at the insertion point used by
`insert_tick` (`tick_x`, `tick_y`). -/
structure Tick where
  page : Nat
  x : ℚ
  y : ℚ
deriving DecidableEq

/-- The mutable state of one `annotate_correct_lines` run: the
`placed_ticks` registry of rounded y keys, the ticks drawn so far, and the
forward-only current page pointer `page_num`. -/
structure LoopState where
  placed : List ℚ
  ticks : List Tick
  pageNum : Nat
deriving DecidableEq

/-- `insert_tick(page, x0, y0, placed_ticks)`: place a checkmark at
`(max(10, x0 - 25), y0 + 10)` unless the rounded tick y is already in the
registry; on success the key is added.  Returns the new state and whether
a tick was drawn. -/
def insert_tick (pageIdx : Nat) (x0 y0 : ℚ) (s : LoopState) : LoopState × Bool :=
  let tickX := max 10 (x0 - 25)
  let tickY := y0 + 10
  let tickKey := pyRound1 tickY
  if tickKey ∈ s.placed then (s, false)
  else
    ({ s with
        ticks := s.ticks ++ [⟨pageIdx, tickX, tickY⟩],
        placed := tickKey :: s.placed }, true)

/-- The tick bookkeeping `annotate_correct_lines` performs at a match: the
line key is the rounded mid-y of the matched rectangle; if it is already
registered nothing happens, otherwise `insert_tick` runs and the line key
is registered as well. -/
def tickForMatch (pageIdx : Nat) (r : Rect) (s : LoopState) : LoopState :=
  let lineKey := pyRound1 ((r.y0 + r.y1) / 2)
  if lineKey ∈ s.placed then s
  else
    let s1 := (insert_tick pageIdx r.x0 r.y0 s).1
    { s1 with placed := lineKey :: s1.placed }

/-- Auxiliary for `findExact`: scan the given pages (whose document indices
start at `base`) and return the first page with a verbatim hit together
with the first rectangle. -/
def findExactAux (text : String) : List Page → Nat → Option (Nat × Rect)
  | [], _ => none
  | pg :: rest, base =>
    match pg.searchFor text with
    | r :: _ => some (base, r)
    | [] => findExactAux text rest (base + 1)

/-- The exact-match lookahead tier: scan pages `p, p+1, …` in order for a
verbatim hit of `text`. -/
def findExact (doc : List Page) (text : String) (p : Nat) : Option (Nat × Rect) :=
  findExactAux text (doc.drop p) p

/-- The word-by-word fallback loop on one page: search each token in order,
collect the first rectangle of each token that hits, and succeed with the
first collected rectangle as soon as four hits have been collected. -/
def fallbackGo (pg : Page) : List String → List Rect → Option Rect
  | [], _ => none
  | w :: ws, hits =>
    let hits1 :=
      match pg.searchFor w with
      | [] => hits
      | r :: _ => hits ++ [r]
    if 4 ≤ hits1.length then hits1.head?
    else fallbackGo pg ws hits1

/-- The fallback tier on one page: tokenize the search text into word runs
and run the four-hit loop. -/
def fallbackOnPage (pg : Page) (text : String) : Option Rect :=
  fallbackGo pg (tokenize text) []

/-- The first rectangles of all tokens of `ws` that hit on `pg`, in token
order (the full hit list the fallback loop draws from). -/
def hitsOf (pg : Page) (ws : List String) : List Rect :=
  ws.filterMap fun w => (pg.searchFor w).head?

/-- The fallback tier over the two candidate pages `[p, p + 1]`, skipping
indices past the end of the document; on success the matching page index
is returned (the pointer is advanced to it). -/
def fallbackPages (doc : List Page) (p : Nat) (text : String) : Option (Nat × Rect) :=
  match doc[p]?.bind fun pg => fallbackOnPage pg text with
  | some r => some (p, r)
  | none =>
    match doc[p+1]?.bind fun pg => fallbackOnPage pg text with
    | some r => some (p + 1, r)
    | none => none

/-- What one iteration of the `annotate_correct_lines` loop reports for a
line. -/
inductive Outcome where
  | skipped
  | matchedAt (page : Nat)
  | unmatched
deriving DecidableEq

/-- One iteration of the `annotate_correct_lines` while-loop body on a
single flattened line: strip the 50-character prefix; skip if empty; try
the exact tier on the current page, then the exact lookahead tier
(advancing the pointer to the matching page), then the two-page fallback
tier (advancing the pointer to the matching candidate page); otherwise the
line is unmatched and the state is untouched. -/
def processLine (doc : List Page) (s : LoopState) (line : String) : LoopState × Outcome :=
  let text := pyStrip (pyTake line 50)
  if text = "" then (s, .skipped)
  else
    match doc[s.pageNum]? with
    | none => (s, .unmatched)
    | some pg =>
      match pg.searchFor text with
      | r :: _ => (tickForMatch s.pageNum r s, .matchedAt s.pageNum)
      | [] =>
        match findExact doc text (s.pageNum + 1) with
        | some (p, r) => ({ tickForMatch p r s with pageNum := p }, .matchedAt p)
        | none =>
          match fallbackPages doc s.pageNum text with
          | some (p, r) => ({ tickForMatch p r s with pageNum := p }, .matchedAt p)
          | none => (s, .unmatched)

/-- The `annotate_correct_lines` while-loop over the flattened lines; the
loop also stops if the page pointer runs past the document. -/
def runLines (doc : List Page) : LoopState → List String → LoopState × List Outcome
  | s, [] => (s, [])
  | s, line :: rest =>
    if s.pageNum < doc.length then
      let step := processLine doc s line
      let next := runLines doc step.1 rest
      (next.1, step.2 :: next.2)
    else (s, [])

/-- The state `annotate_correct_lines` starts from: empty registry, no
ticks drawn, page pointer at the first page. -/
def initLoopState : LoopState :=
  ⟨[], [], 0⟩

/-- `annotate_correct_lines(doc, correct_lines)`: flatten the rubric cells
and run the tick loop over the whole document. -/
def annotate_correct_lines (doc : List Page) (cells : List Cell) : LoopState × List Outcome :=
  runLines doc initLoopState (flattenLines cells)

/-- Tick-registry well-formedness: every drawn tick's rounded y is
registered, and no two drawn ticks share a rounded y. -/
def wfTicks (s : LoopState) : Prop :=
  (∀ t ∈ s.ticks, pyRound1 t.y ∈ s.placed) ∧
    (s.ticks.map fun t => pyRound1 t.y).Nodup

/-! ## Word-wrapped comment writer -/

/-- A font, modelled by the glyph-width measurement primitive
`font.text_length(text, fontsize=fontsize)`. -/
structure Font where
  textLength : String → ℚ → ℚ

/-- The words of the comment (`text.split()`). -/
def wordsOf (text : String) : List String :=
  pySplitWs text

/-- The greedy word-wrap loop of `insert_wrapped_text`: grow the current
line while the measured width of the candidate stays within `maxWidth`,
otherwise emit the current line (if non-empty) and restart from the word. -/
def wrapAux (font : Font) (maxWidth fontsize : ℚ) : List String → String → List String
  | [], cur => if cur = "" then [] else [cur]
  | w :: ws, cur =>
    let test := cur ++ (if cur = "" then "" else " ") ++ w
    if font.textLength test fontsize ≤ maxWidth then wrapAux font maxWidth fontsize ws test
    else if cur = "" then wrapAux font maxWidth fontsize ws w
    else cur :: wrapAux font maxWidth fontsize ws w

/-- The wrapped lines of the comment. -/
def wrapLines (font : Font) (text : String) (maxWidth fontsize : ℚ) : List String :=
  wrapAux font maxWidth fontsize (wordsOf text) ""

/-- The drawing loop of `insert_wrapped_text`: line `i` goes at
`y + i * lineHeight`; the loop breaks (with a truncation warning, the
returned flag) as soon as a candidate's bottom edge would cross `yLimit`.
Returns the drawn `(x, y, line)` triples and the truncation flag. -/
def drawLines (x y lineHeight yLimit : ℚ) : List String → Nat → List (ℚ × ℚ × String) × Bool
  | [], _ => ([], false)
  | l :: ls, i =>
    if yLimit < y + i * lineHeight + lineHeight then ([], true)
    else
      let rest := drawLines x y lineHeight yLimit ls (i + 1)
      ((x, y + i * lineHeight, l) :: rest.1, rest.2)

/-- `insert_wrapped_text(page, x, y, text, max_width, fontsize, color,
fontname, y_limit)`: wrap the text and draw the lines top-down at line
height `fontsize + 2`, clipped at `y_limit`.  Returns the drawn text
insertions and whether the truncation warning fired. -/
def insert_wrapped_text (font : Font) (x y : ℚ) (text : String)
    (maxWidth fontsize yLimit : ℚ) : List (ℚ × ℚ × String) × Bool :=
  drawLines x y (fontsize + 2) yLimit (wrapLines font text maxWidth fontsize) 0

/-! ## Question spans -/

/-- A question span: label, anchor y (`y0` of the first search hit of the
label), and the end of its vertical extent (next span's anchor, or the
page height for the last span). -/
structure QSpan where
  q : String
  y0 : ℚ
  yEnd : ℚ
deriving DecidableEq

/-- The sort order of `question_positions.sort(key=lambda x: x[1])`:
ascending anchor y. -/
def byY (a b : String × ℚ) : Prop :=
  a.2 ≤ b.2

instance : DecidableRel byY :=
  fun a b => inferInstanceAs (Decidable (a.2 ≤ b.2))

instance : IsTotal (String × ℚ) byY :=
  ⟨fun a b => le_total a.2 b.2⟩

instance : IsTrans (String × ℚ) byY :=
  ⟨fun _ _ _ hab hbc => le_trans hab hbc⟩

/-- The anchor of the next span if there is one, else the page height. -/
def nextAnchor (pageHeight : ℚ) : List (String × ℚ) → ℚ
  | [] => pageHeight
  | p :: _ => p.2

/-- Attach vertical extents to the y-sorted label positions: each span
ends where the next begins, the last at the page height
(`y1 = question_positions[i+1][1] if i+1 < len(...) else page.rect.height`). -/
def spanExtents (pageHeight : ℚ) : List (String × ℚ) → List QSpan
  | [] => []
  | (q, y) :: rest =>
    { q := q, y0 := y, yEnd := nextAnchor pageHeight rest } :: spanExtents pageHeight rest

/-- The question spans of one page in `annotate_pdf`: sort the located
label positions by anchor y (Python's sort is stable; insertion sort is
the corresponding stable sort), then attach extents. -/
def buildSpans (positions : List (String × ℚ)) (pageHeight : ℚ) : List QSpan :=
  spanExtents pageHeight (List.insertionSort byY positions)

/-! ## Per-span score and comment placement -/

/-- The stoplist of `annotate_pdf`: a label whose same-line context
contains any of these (lower-cased) marks it as a marks-tally line. -/
def stoplist : List String :=
  ["marks", "/", "score", "total"]

/-- `any(keyword in surrounding_text.lower() for keyword in [...])`. -/
def isScoreLine (surrounding : String) : Bool :=
  stoplist.any fun k => strContainsSub (pyLower surrounding) k

/-- A score text insertion (`page.insert_text((text_x, text_y), score_text, ...)`). -/
structure ScoreInk where
  x : ℚ
  y : ℚ
  text : String
deriving DecidableEq

/-- The outcome of processing one question span in `annotate_pdf`'s
per-page loop. -/
structure SpanResult where
  score : Option ScoreInk
  annotatedQs : List String
  comment : Option (ℚ × ℚ × String × ℚ)

/-- One iteration of `annotate_pdf`'s per-span loop: skip score placement
when the surrounding line trips the stoplist, otherwise place the score at
`(inst.x0 - 40, inst.y0 + 10)` for the first label hit if the question has
a score and was not yet annotated on this page; independently, place the
comment (at `x = page.rect.width - 90`, starting at the span's anchor,
clipped at `y1 - 5`) whenever one is registered for the label. -/
def annotateSpan (pg : Page) (scoreDict commentDict : String → Option String)
    (annotatedQs : List String) (q : String) (y0 y1 : ℚ)
    (surrounding : String) : SpanResult :=
  let scorePart : Option ScoreInk × List String :=
    if isScoreLine surrounding then (none, annotatedQs)
    else
      match scoreDict q with
      | some sc =>
        if q ∈ annotatedQs then (none, annotatedQs)
        else
          match pg.searchFor q with
          | inst :: _ => (some ⟨inst.x0 - 40, inst.y0 + 10, sc⟩, annotatedQs ++ [q])
          | [] => (none, annotatedQs)
      | none => (none, annotatedQs)
  let commentPart : Option (ℚ × ℚ × String × ℚ) :=
    match commentDict q with
    | some c => some (pg.width - 90, y0, c, y1 - 5)
    | none => none
  ⟨scorePart.1, scorePart.2, commentPart⟩

/-! ## The annotate_pdf orchestrator -/

/-- One row of the grades CSV, as far as `annotate_pdf` reads it; the
`correct_lines` / `correct_words` fields are `none` when the cell is NaN
(dropped by `dropna()`). -/
structure GradeRow where
  question_number : String
  score : String
  total_marks : String
  comment : Option String
  correct_lines : Option Cell
  correct_words : Option Cell

/-- The outcome of `pd.read_csv`: rows, the empty-file error, or any other
load error. -/
inductive CsvRead where
  | ok (rows : List GradeRow)
  | emptyErr
  | otherErr

/-- The external effect primitives `annotate_pdf` calls out to:
`os.path.exists`, `pd.read_csv`, `fitz.open`, and whether `doc.save` at a
path succeeds. -/
structure World where
  fileExists : String → Bool
  readCsv : String → CsvRead
  openDoc : String → Option (List Page)
  saveOk : String → Bool

/-- String prefix test (`s.startswith(pre)`). -/
def strStartsWith (s pre : String) : Bool :=
  pre.data.isPrefixOf s.data

/-- String suffix test (`s.endswith(post)`). -/
def strEndsWith (s post : String) : Bool :=
  post.data.reverse.isPrefixOf s.data.reverse

/-- `os.path.join` on two components (POSIX). -/
def path_join (a b : String) : String :=
  if strStartsWith b "/" then b
  else if a = "" then b
  else if strEndsWith a "/" then a ++ b
  else a ++ "/" ++ b

/-- `os.path.dirname` (POSIX). -/
def path_dirname (p : String) : String :=
  match p.data.reverse.dropWhile (fun c => c ≠ '/') with
  | [] => ""
  | rest =>
    if rest.all (fun c => c = '/') then String.mk rest.reverse
    else String.mk (rest.dropWhile (fun c => c = '/')).reverse

/-- The output path `annotate_pdf` computes:
`os.path.join(output_dir, student_lower, student_lower + "_annotated.pdf")`
with `student_lower = student_name.lower()`. -/
def output_pdf_path (outputDir studentName : String) : String :=
  path_join (path_join outputDir (pyLower studentName))
    (pyLower studentName ++ "_annotated.pdf")

/-- The outward effects of one `annotate_pdf` run: the boolean result, the
paths successfully saved to, the directories created, and the final state
of the correct-lines tick pass when the annotation body ran (`none` when
the run aborted before annotating). -/
structure RunResult where
  success : Bool
  saved : List String
  madeDirs : List String
  ticksPass : Option LoopState

/-- `annotate_pdf(input_dir, output_dir, student_name, grades_csv_path)`:
validate the input PDF path and the grades CSV, open the document, run the
annotation passes (the whole-document tick pass is the part modelled in
the result), create the output directory, and save.  Any validation or
open failure aborts with a `False` result before anything is drawn. -/
def annotate_pdf (w : World) (inputDir outputDir studentName gradesCsvPath : String) : RunResult :=
  let inputPdfPath := inputDir
  let outputPdfPath := output_pdf_path outputDir studentName
  if w.fileExists inputPdfPath = false then ⟨false, [], [], none⟩
  else if w.fileExists gradesCsvPath = false then ⟨false, [], [], none⟩
  else
    match w.readCsv gradesCsvPath with
    | .emptyErr => ⟨false, [], [], none⟩
    | .otherErr => ⟨false, [], [], none⟩
    | .ok rows =>
      match w.openDoc inputPdfPath with
      | none => ⟨false, [], [], none⟩
      | some doc =>
        let correctLines := rows.filterMap GradeRow.correct_lines
        let ticks :=
          if correctLines.isEmpty then initLoopState
          else (annotate_correct_lines doc correctLines).1
        let dirs := [path_dirname outputPdfPath]
        if w.saveOk outputPdfPath then ⟨true, [outputPdfPath], dirs, some ticks⟩
        else ⟨false, [], dirs, some ticks⟩

/-! ## Concrete fixtures used by witnesses and counterexamples -/

/-- A font whose measured width is the character count (a concrete
instance of the glyph-width primitive). -/
def charWidthFont : Font :=
  ⟨fun s _ => (s.length : ℚ)⟩

/-- A generic match rectangle. -/
def rectA : Rect := ⟨100, 200, 150, 210⟩

/-- A page on which the phrase `"not a list"` occurs verbatim. -/
def pgC4 : Page :=
  ⟨fun t => if t = "not a list" then [rectA] else [], 600, 800⟩

def rectW1 : Rect := ⟨40, 300, 60, 310⟩

def rectW2 : Rect := ⟨80, 300, 100, 310⟩

def rectW3 : Rect := ⟨120, 300, 140, 310⟩

/-- A page on which exactly the words `aa`, `bb`, `cc` produce verbatim
hits (and no longer phrase does). -/
def pgWords : Page :=
  ⟨fun t =>
    if t = "aa" then [rectW1]
    else if t = "bb" then [rectW2]
    else if t = "cc" then [rectW3]
    else [], 600, 800⟩

def rectL : Rect := ⟨30, 50, 90, 60⟩

/-- A page containing the line `"only early"`. -/
def pgEarly : Page :=
  ⟨fun t => if t = "only early" then [rectL] else [], 600, 800⟩

/-- A page containing nothing. -/
def pgBlank : Page :=
  ⟨fun _ => [], 600, 800⟩

/-- A loop state whose page pointer has already advanced to page 1. -/
def stC1 : LoopState := ⟨[], [], 1⟩

/-- A rectangle whose vertical midpoint is y = 12.52. -/
def rectC3 : Rect := ⟨100, 12.5, 200, 12.54⟩

/-- A page containing the line `"hello"` at mid-y 12.52. -/
def pgC3 : Page :=
  ⟨fun t => if t = "hello" then [rectC3] else [], 600, 800⟩

/-- A loop state whose tick registry already holds the key 12.5. -/
def stC3 : LoopState := ⟨[12.5], [], 0⟩

/-- A page on which the label `"2.1"` occurs. -/
def pgC7 : Page :=
  ⟨fun t => if t = "2.1" then [⟨60, 100, 80, 110⟩] else [], 600, 800⟩

def scoreDictC7 : String → Option String :=
  fun q => if q = "2.1" then some "4/5" else none

def commentDictC7 : String → Option String :=
  fun q => if q = "2.1" then some "good work" else none

/-- A world in which no file exists. -/
def worldMissing : World :=
  ⟨fun _ => false, fun _ => CsvRead.otherErr, fun _ => none, fun _ => false⟩

/-- A world in which every step of `annotate_pdf` succeeds. -/
def worldOk : World :=
  ⟨fun _ => true, fun _ => CsvRead.ok [], fun _ => some [pgBlank], fun _ => true⟩

/-- A nine-word comment. -/
def textC5 : String := "aa bb cc dd ee ff gg hh ii"

/-! ## Helper lemmas: flattening -/

theorem foldl_flattenStep (cs : List Cell) :
    ∀ acc : List String, cs.foldl flattenStep acc = acc ++ cs.foldl flattenStep [] := by
  induction cs with
  | nil => intro acc; simp
  | cons c cs ih =>
    intro acc
    rw [List.foldl_cons, List.foldl_cons, ih (flattenStep acc c), ih (flattenStep [] c)]
    simp [flattenStep]

theorem flattenLines_cons (c : Cell) (cs : List Cell) :
    flattenLines (c :: cs) = cellLines c ++ flattenLines cs := by
  rw [flattenLines, List.foldl_cons, foldl_flattenStep]
  simp [flattenLines, flattenStep]

/-! ## C4: rubric-cell fallback -/

/-- C4 (counterexample): the non-empty cell text `"not a list"` fails to
parse; the `correct_lines` flattening keeps it as a single literal line,
but `underline_correct_words` discards the same cell outright — it
underlines nothing even though the phrase occurs verbatim on the page —
so the claim's "for every rubric cell in correct_lines and in
correct_words … treated as a single literal string rather than being
discarded" is false for `correct_words`. -/
theorem c4_cell_fallback_counterexample :
    cellLines (Cell.err "not a list") = ["not a list"] ∧
    pgC4.searchFor "not a list" = [rectA] ∧
    underline_correct_words pgC4 [Cell.err "not a list"] = [] := by
  refine ⟨by decide, by decide, rfl⟩

/-- C4 (amended): in the `correct_lines` flattening, a cell that fails
literal parsing is treated as one literal string (stripped, kept if
non-empty), while a cell parsed as a non-list non-string literal is
discarded; in the `correct_words` pass a cell that does not parse as a
literal list is discarded entirely; flattening preserves relative order of
entries within and across cells. -/
theorem c4_cell_fallback_amended :
    (∀ raw, pyStrip raw ≠ "" → cellLines (Cell.err raw) = [pyStrip raw]) ∧
    (∀ raw, cellLines (Cell.ok PyVal.vother raw) = []) ∧
    (∀ raw, cellUnderlinePhrases (Cell.err raw) = []) ∧
    (∀ s raw, cellUnderlinePhrases (Cell.ok (PyVal.vstr s) raw) = []) ∧
    (∀ c cs, flattenLines (c :: cs) = cellLines c ++ flattenLines cs) ∧
    flattenLines [Cell.ok (PyVal.vlist [PyVal.vstr "line one", PyVal.vstr "line two"]) "raw",
        Cell.err " lone line "] = ["line one", "line two", "lone line"] := by
  refine ⟨?_, ?_, ?_, ?_, flattenLines_cons, ?_⟩
  · intro raw h
    simp [cellLines, h]
  · intro raw; rfl
  · intro raw; rfl
  · intro s raw; rfl
  · decide

/-- C4 witness: a concrete unparseable, non-empty cell is kept as one
stripped literal line. -/
theorem c4_cell_fallback_witness :
    cellLines (Cell.err " lone line ") = [pyStrip " lone line "] ∧
    pyStrip " lone line " = "lone line" :=
  ⟨c4_cell_fallback_amended.1 " lone line " (by decide), by decide⟩

/-! ## Helper lemmas: the comment drawing loop -/

theorem drawLines_bottom (x y lh yL : ℚ) :
    ∀ (ls : List String) (i : Nat), ∀ a ∈ (drawLines x y lh yL ls i).1, a.2.1 + lh ≤ yL := by
  intro ls
  induction ls with
  | nil =>
    intro i a ha
    simp [drawLines] at ha
  | cons l ls ih =>
    intro i a ha
    rw [drawLines] at ha
    split at ha
    · simp at ha
    · rename_i hcond
      rcases List.mem_cons.mp ha with h | h
      · subst h
        push_neg at hcond
        simpa using hcond
      · exact ih (i+1) a h

theorem drawLines_flag (x y lh yL : ℚ) :
    ∀ (ls : List String) (i : Nat),
      ((drawLines x y lh yL ls i).2 = true ↔ (drawLines x y lh yL ls i).1.length < ls.length) := by
  intro ls
  induction ls with
  | nil => intro i; simp [drawLines]
  | cons l ls ih =>
    intro i
    rw [drawLines]
    split
    · simp
    · simp only [List.length_cons, Nat.add_lt_add_iff_right]
      exact ih (i+1)

theorem drawLines_complete (x y lh yL : ℚ) (hlh : 0 ≤ lh) :
    ∀ (ls : List String) (i j : Nat) (hj : j < ls.length),
      y + (i + j) * lh + lh ≤ yL →
      (x, y + (i + j) * lh, ls[j]) ∈ (drawLines x y lh yL ls i).1 := by
  intro ls
  induction ls with
  | nil =>
    intro i j hj
    simp at hj
  | cons l ls ih =>
    intro i j hj hle
    have hnb : ¬ (yL < y + i * lh + lh) := by
      push_neg
      refine le_trans ?_ hle
      have hij : (i:ℚ) * lh ≤ ((i:ℚ) + (j:ℚ)) * lh := by
        apply mul_le_mul_of_nonneg_right _ hlh
        have : (0:ℚ) ≤ (j:ℚ) := by positivity
        linarith
      linarith
    rw [drawLines, if_neg hnb]
    cases j with
    | zero => simp
    | succ j =>
      have hj2 : j < ls.length := by simpa using hj
      have hmem := ih (i+1) j hj2 (by push_cast at hle ⊢; linarith)
      refine List.mem_cons_of_mem _ ?_
      simp only [List.getElem_cons_succ]
      have hco : y + ((i:ℚ) + ((j:ℕ)+(1:ℕ) : ℕ)) * lh = y + (((i:ℕ)+(1:ℕ) : ℕ) + (j:ℚ)) * lh := by
        push_cast
        ring
      rw [hco]
      exact hmem

/-! ## C5: wrap-and-clip comment writer -/

/-- C5: the wrapped comment lines are emitted top-down at the fixed line
height `fontsize + 2`; no drawn line's bottom edge (its y plus the line
height) crosses `y_limit`; the truncation warning fires exactly when some
wrapped line goes undrawn; and (for a nonnegative font size) every wrapped
line whose slot lies wholly above the limit is drawn, at its top-down
position. -/
theorem c5_wrap_and_clip (font : Font) (x y : ℚ) (text : String)
    (maxWidth fontsize yLimit : ℚ) :
    (∀ a ∈ (insert_wrapped_text font x y text maxWidth fontsize yLimit).1,
        a.2.1 + (fontsize + 2) ≤ yLimit) ∧
    ((insert_wrapped_text font x y text maxWidth fontsize yLimit).2 = true ↔
      (insert_wrapped_text font x y text maxWidth fontsize yLimit).1.length <
        (wrapLines font text maxWidth fontsize).length) ∧
    (0 ≤ fontsize →
      ∀ (j : Nat) (hj : j < (wrapLines font text maxWidth fontsize).length),
        y + j * (fontsize + 2) + (fontsize + 2) ≤ yLimit →
        (x, y + j * (fontsize + 2), (wrapLines font text maxWidth fontsize)[j]) ∈
          (insert_wrapped_text font x y text maxWidth fontsize yLimit).1) := by
  refine ⟨?_, ?_, ?_⟩
  · intro a ha
    exact drawLines_bottom x y (fontsize+2) yLimit _ 0 a ha
  · exact drawLines_flag x y (fontsize+2) yLimit _ 0
  · intro hfs j hj hle
    have hlh : (0:ℚ) ≤ fontsize + 2 := by linarith
    have h := drawLines_complete x y (fontsize+2) yLimit hlh _ 0 j hj (by simpa using hle)
    simpa using h

/-- C5 witness: a nine-word comment, a width fitting three two-letter
words per line, and a band of exactly two lines: the second line is drawn
at y = 3 and within the limit. -/
theorem c5_wrap_and_clip_witness :
    ((0:ℚ), (3:ℚ), "dd ee ff") ∈ (insert_wrapped_text charWidthFont 0 0 textC5 8 1 6).1 ∧
    (3:ℚ) + ((1:ℚ) + 2) ≤ 6 := by
  have e2 : wrapLines charWidthFont textC5 8 1 = ["aa bb cc", "dd ee ff", "gg hh ii"] := by
    decide
  have hmem : ((0:ℚ), (3:ℚ), "dd ee ff") ∈ (insert_wrapped_text charWidthFont 0 0 textC5 8 1 6).1 := by
    show ((0:ℚ), (3:ℚ), "dd ee ff") ∈
      (drawLines 0 0 ((1:ℚ)+2) 6 (wrapLines charWidthFont textC5 8 1) 0).1
    rw [e2]
    norm_num [drawLines]
  exact ⟨hmem, (c5_wrap_and_clip charWidthFont 0 0 textC5 8 1 6).1 _ hmem⟩

/-! ## C10: over-wide single words -/

theorem wrapAux_mem (font : Font) (mw fs : ℚ) (W : List String) :
    ∀ (ws : List String) (cur : String),
      (cur = "" ∨ font.textLength cur fs ≤ mw ∨ cur ∈ W) →
      (∀ w ∈ ws, w ∈ W) →
      ∀ l ∈ wrapAux font mw fs ws cur, font.textLength l fs ≤ mw ∨ l ∈ W := by
  intro ws
  induction ws with
  | nil =>
    intro cur hcur _ l hl
    rw [wrapAux] at hl
    split at hl
    · simp at hl
    · rename_i hne
      simp only [List.mem_singleton] at hl
      subst hl
      rcases hcur with h | h | h
      · exact absurd h hne
      · exact Or.inl h
      · exact Or.inr h
  | cons w ws ih =>
    intro cur hcur hws l hl
    have hwmem : w ∈ W := hws w (List.mem_cons_self _ _)
    have hrest : ∀ u ∈ ws, u ∈ W := fun u hu => hws u (List.mem_cons_of_mem _ hu)
    simp only [wrapAux] at hl
    by_cases hfit : font.textLength (cur ++ (if cur = "" then "" else " ") ++ w) fs ≤ mw
    · rw [if_pos hfit] at hl
      exact ih _ (Or.inr (Or.inl hfit)) hrest l hl
    · rw [if_neg hfit] at hl
      by_cases hcur0 : cur = ""
      · rw [if_pos hcur0] at hl
        exact ih _ (Or.inr (Or.inr hwmem)) hrest l hl
      · rw [if_neg hcur0] at hl
        rcases List.mem_cons.mp hl with h | h
        · subst h
          rcases hcur with h | h | h
          · exact absurd h hcur0
          · exact Or.inl h
          · exact Or.inr h
        · exact ih _ (Or.inr (Or.inr hwmem)) hrest l h

/-- C10: an emitted wrapped line whose measured width exceeds `max_width`
is necessarily one of the whitespace-separated words of the comment (a
single over-wide word emitted as a line of its own); every other emitted
line fits within `max_width`.  Concretely, a width-3 wrap of
`"aaaa bb cc"` emits the over-wide single word `"aaaa"` as its own line. -/
theorem c10_overwide_single_word :
    (∀ (font : Font) (text : String) (mw fs : ℚ) (l : String),
        l ∈ wrapLines font text mw fs → mw < font.textLength l fs → l ∈ wordsOf text) ∧
    (wrapLines charWidthFont "aaaa bb cc" 3 1 = ["aaaa", "bb", "cc"] ∧
      (3:ℚ) < charWidthFont.textLength "aaaa" 1) := by
  constructor
  · intro font text mw fs l hl hgt
    have h := wrapAux_mem font mw fs (wordsOf text) (wordsOf text) "" (Or.inl rfl)
      (fun _ h => h) l hl
    rcases h with h | h
    · exact absurd hgt (not_lt.mpr h)
    · exact h
  · exact ⟨by decide, by decide⟩

/-- C10 witness: the over-wide emitted line `"aaaa"` is indeed a single
word of the comment. -/
theorem c10_overwide_single_word_witness :
    "aaaa" ∈ wordsOf "aaaa bb cc" :=
  c10_overwide_single_word.1 charWidthFont "aaaa bb cc" 3 1 "aaaa" (by decide) (by decide)

/-! ## Helper lemmas: question spans -/

theorem spanExtents_map_y0 (h : ℚ) :
    ∀ l : List (String × ℚ), (spanExtents h l).map QSpan.y0 = l.map Prod.snd := by
  intro l
  induction l with
  | nil => rfl
  | cons p rest ih =>
    cases p with
    | mk q y => simp [spanExtents, ih]

theorem spanExtents_cons (h : ℚ) (p : String × ℚ) (l : List (String × ℚ)) :
    spanExtents h (p :: l) = ⟨p.1, p.2, nextAnchor h l⟩ :: spanExtents h l := by
  obtain ⟨q, y⟩ := p
  rfl

theorem spanExtents_adjacent (h : ℚ) :
    ∀ (l : List (String × ℚ)) (i : Nat) (s1 s2 : QSpan),
      (spanExtents h l)[i]? = some s1 → (spanExtents h l)[i+1]? = some s2 →
      s1.yEnd = s2.y0 := by
  intro l
  induction l with
  | nil =>
    intro i s1 s2 h1 _
    simp [spanExtents] at h1
  | cons p rest ih =>
    intro i s1 s2 h1 h2
    rw [spanExtents_cons] at h1 h2
    cases i with
    | zero =>
      rw [List.getElem?_cons_zero] at h1
      rw [List.getElem?_cons_succ] at h2
      cases rest with
      | nil => simp [spanExtents] at h2
      | cons p2 r2 =>
        rw [spanExtents_cons, List.getElem?_cons_zero] at h2
        injection h1 with h1
        injection h2 with h2
        rw [← h1, ← h2]
        rfl
    | succ i =>
      rw [List.getElem?_cons_succ] at h1 h2
      exact ih i s1 s2 h1 h2

theorem spanExtents_last (h : ℚ) :
    ∀ (l : List (String × ℚ)) (i : Nat) (s1 : QSpan),
      (spanExtents h l)[i]? = some s1 → (spanExtents h l)[i+1]? = none →
      s1.yEnd = h := by
  intro l
  induction l with
  | nil =>
    intro i s1 h1 _
    simp [spanExtents] at h1
  | cons p rest ih =>
    intro i s1 h1 h2
    rw [spanExtents_cons] at h1 h2
    cases i with
    | zero =>
      rw [List.getElem?_cons_zero] at h1
      rw [List.getElem?_cons_succ] at h2
      cases rest with
      | nil =>
        injection h1 with h1
        rw [← h1]
        rfl
      | cons p2 r2 =>
        rw [spanExtents_cons, List.getElem?_cons_zero] at h2
        exact absurd h2 (by simp)
    | succ i =>
      rw [List.getElem?_cons_succ] at h1 h2
      exact ih i s1 h1 h2

theorem buildSpans_sorted (positions : List (String × ℚ)) (h : ℚ) :
    ((buildSpans positions h).map QSpan.y0).Sorted (· ≤ ·) := by
  rw [buildSpans, spanExtents_map_y0]
  have hs := List.sorted_insertionSort byY positions
  exact List.Pairwise.map Prod.snd (fun a b hab => hab) hs

/-! ## C6: question-span ordering and adjacency -/

/-- C6: the spans built from located question labels are sorted ascending
by anchor y; each span's extent ends exactly where the next begins; the
last span's extent ends at the page bottom; and labels at
y = [100, 250, 400] on a page of height 800 yield extents
[100, 250), [250, 400), [400, 800). -/
theorem c6_question_span_adjacency :
    (∀ (positions : List (String × ℚ)) (pageHeight : ℚ),
      ((buildSpans positions pageHeight).map QSpan.y0).Sorted (· ≤ ·) ∧
      (∀ (i : Nat) (s1 s2 : QSpan),
        (buildSpans positions pageHeight)[i]? = some s1 →
        (buildSpans positions pageHeight)[i+1]? = some s2 → s1.yEnd = s2.y0) ∧
      (∀ (i : Nat) (s1 : QSpan),
        (buildSpans positions pageHeight)[i]? = some s1 →
        (buildSpans positions pageHeight)[i+1]? = none → s1.yEnd = pageHeight)) ∧
    buildSpans [("1.2", 250), ("1.1", 100), ("1.3", 400)] 800 =
      [⟨"1.1", 100, 250⟩, ⟨"1.2", 250, 400⟩, ⟨"1.3", 400, 800⟩] := by
  constructor
  · intro positions pageHeight
    exact ⟨buildSpans_sorted positions pageHeight,
      fun i s1 s2 => spanExtents_adjacent pageHeight _ i s1 s2,
      fun i s1 => spanExtents_last pageHeight _ i s1⟩
  · decide

/-- C6 witness: on the example spans, span 0 ends exactly where span 1
begins. -/
theorem c6_question_span_adjacency_witness :
    (⟨"1.1", 100, 250⟩ : QSpan).yEnd = (⟨"1.2", 250, 400⟩ : QSpan).y0 :=
  (c6_question_span_adjacency.1 [("1.2", 250), ("1.1", 100), ("1.3", 400)] 800).2.1 0
    ⟨"1.1", 100, 250⟩ ⟨"1.2", 250, 400⟩ (by decide) (by decide)

/-! ## C7: marks-stoplist filter -/

/-- C7: when the text line containing a label contains (case-insensitively)
any of "marks", "/", "score", "total", no score text is placed for that
occurrence and the annotated set is unchanged, but a registered comment is
still placed using that label's span (x at page width minus 90, from the
span's anchor, clipped at its extent minus 5). -/
theorem c7_stoplist_filter (pg : Page) (scoreDict commentDict : String → Option String)
    (annotatedQs : List String) (q : String) (y0 y1 : ℚ) (surrounding : String)
    (h : isScoreLine surrounding = true) :
    (annotateSpan pg scoreDict commentDict annotatedQs q y0 y1 surrounding).score = none ∧
    (annotateSpan pg scoreDict commentDict annotatedQs q y0 y1 surrounding).annotatedQs =
      annotatedQs ∧
    (∀ c, commentDict q = some c →
      (annotateSpan pg scoreDict commentDict annotatedQs q y0 y1 surrounding).comment =
        some (pg.width - 90, y0, c, y1 - 5)) := by
  refine ⟨?_, ?_, ?_⟩
  · simp [annotateSpan, h]
  · simp [annotateSpan, h]
  · intro c hc
    simp [annotateSpan, h, hc]

/-- C7 witness: the label "2.1" on the line "2.1 / 5 Marks" gets no score
ink, yet its registered comment is placed on its span. -/
theorem c7_stoplist_filter_witness :
    (annotateSpan pgC7 scoreDictC7 commentDictC7 [] "2.1" 100 250 "2.1 / 5 Marks").comment =
      some (pgC7.width - 90, 100, "good work", 250 - 5) ∧
    (annotateSpan pgC7 scoreDictC7 commentDictC7 [] "2.1" 100 250 "2.1 / 5 Marks").score =
      none :=
  ⟨(c7_stoplist_filter pgC7 scoreDictC7 commentDictC7 [] "2.1" 100 250 "2.1 / 5 Marks"
      (by decide)).2.2 "good work" rfl,
    (c7_stoplist_filter pgC7 scoreDictC7 commentDictC7 [] "2.1" 100 250 "2.1 / 5 Marks"
      (by decide)).1⟩

/-! ## C8: aborting validation failures -/

/-- C8: annotate_pdf returns a failure result when the input PDF path does
not exist, when the grades CSV path does not exist, when the CSV file is
empty, or when opening the document fails; in each case nothing is saved,
no directory is created, and the annotation body never runs. -/
theorem c8_abort_paths (w : World) (inputDir outputDir studentName gradesCsvPath : String) :
    (w.fileExists inputDir = false →
      annotate_pdf w inputDir outputDir studentName gradesCsvPath = ⟨false, [], [], none⟩) ∧
    (w.fileExists inputDir = true → w.fileExists gradesCsvPath = false →
      annotate_pdf w inputDir outputDir studentName gradesCsvPath = ⟨false, [], [], none⟩) ∧
    (w.fileExists inputDir = true → w.fileExists gradesCsvPath = true →
      w.readCsv gradesCsvPath = CsvRead.emptyErr →
      annotate_pdf w inputDir outputDir studentName gradesCsvPath = ⟨false, [], [], none⟩) ∧
    (∀ rows, w.fileExists inputDir = true → w.fileExists gradesCsvPath = true →
      w.readCsv gradesCsvPath = CsvRead.ok rows →
      w.openDoc inputDir = none →
      annotate_pdf w inputDir outputDir studentName gradesCsvPath = ⟨false, [], [], none⟩) := by
  refine ⟨?_, ?_, ?_, ?_⟩
  · intro h1
    simp [annotate_pdf, h1]
  · intro h1 h2
    simp [annotate_pdf, h1, h2]
  · intro h1 h2 h3
    simp [annotate_pdf, h1, h2, h3]
  · intro rows h1 h2 h3 h4
    simp [annotate_pdf, h1, h2, h3, h4]

/-- C8 witness: with a missing input PDF the run aborts with no effects. -/
theorem c8_abort_paths_witness :
    annotate_pdf worldMissing "in.pdf" "out" "Alice" "grades.csv" = ⟨false, [], [], none⟩ :=
  (c8_abort_paths worldMissing "in.pdf" "out" "Alice" "grades.csv").1 rfl

/-! ## C9: the save path of a successful run -/

/-- C9: a successful run saves exactly once, to
`os.path.join(output_dir, lower, lower + "_annotated.pdf")` where `lower`
is the lower-cased student name, after creating that path's directory;
and the output path depends on the student name only through its
lower-casing. -/
theorem c9_output_path (w : World) (inputDir outputDir studentName gradesCsvPath : String) :
    ((annotate_pdf w inputDir outputDir studentName gradesCsvPath).success = true →
      (annotate_pdf w inputDir outputDir studentName gradesCsvPath).saved =
        [output_pdf_path outputDir studentName] ∧
      (annotate_pdf w inputDir outputDir studentName gradesCsvPath).madeDirs =
        [path_dirname (output_pdf_path outputDir studentName)]) ∧
    (∀ n1 n2 : String, pyLower n1 = pyLower n2 →
      output_pdf_path outputDir n1 = output_pdf_path outputDir n2) := by
  constructor
  · intro hs
    simp only [annotate_pdf] at hs ⊢
    by_cases h1 : w.fileExists inputDir = false
    · simp [h1] at hs
    · simp only [Bool.not_eq_false] at h1
      by_cases h2 : w.fileExists gradesCsvPath = false
      · simp [h1, h2] at hs
      · simp only [Bool.not_eq_false] at h2
        rcases h3 : w.readCsv gradesCsvPath with rows | _ | _
        · rcases h4 : w.openDoc inputDir with _ | doc
          · simp [h1, h2, h3, h4] at hs
          · by_cases h5 : w.saveOk (output_pdf_path outputDir studentName) = true
            · simp [h1, h2, h3, h4, h5]
            · simp only [Bool.not_eq_true] at h5
              simp [h1, h2, h3, h4, h5] at hs
        · simp [h1, h2, h3] at hs
        · simp [h1, h2, h3] at hs
  · intro n1 n2 hn
    unfold output_pdf_path
    rw [hn]

/-- C9 witness: in a world where every step succeeds, the run succeeds and
saves once at the lowercased path; concretely the path for student
"Alice" under directory "out" is "out/alice/alice_annotated.pdf". -/
theorem c9_output_path_witness :
    (annotate_pdf worldOk "in.pdf" "out" "Alice" "grades.csv").saved =
      [output_pdf_path "out" "Alice"] ∧
    output_pdf_path "out" "Alice" = "out/alice/alice_annotated.pdf" :=
  ⟨((c9_output_path worldOk "in.pdf" "out" "Alice" "grades.csv").1 rfl).1, by decide⟩

/-! ## Helper lemmas: the tick pass -/

theorem insert_tick_pageNum (pageIdx : Nat) (x0 y0 : ℚ) (s : LoopState) :
    (insert_tick pageIdx x0 y0 s).1.pageNum = s.pageNum := by
  simp only [insert_tick]
  split <;> rfl

theorem tickForMatch_pageNum (pageIdx : Nat) (r : Rect) (s : LoopState) :
    (tickForMatch pageIdx r s).pageNum = s.pageNum := by
  simp only [tickForMatch]
  split
  · rfl
  · exact insert_tick_pageNum pageIdx r.x0 r.y0 s

theorem loopState_update_pageNum (t : LoopState) (p : Nat) (h : t.pageNum = p) :
    { t with pageNum := p } = t := by
  cases t
  cases h
  rfl

theorem findExactAux_le (text : String) :
    ∀ (pages : List Page) (base p : Nat) (r : Rect),
      findExactAux text pages base = some (p, r) → base ≤ p := by
  intro pages
  induction pages with
  | nil =>
    intro base p r h
    simp [findExactAux] at h
  | cons pg rest ih =>
    intro base p r h
    rw [findExactAux] at h
    rcases hsearch : pg.searchFor text with _ | ⟨r0, rs⟩
    · rw [hsearch] at h
      exact le_trans (Nat.le_succ base) (ih (base+1) p r h)
    · rw [hsearch] at h
      simp only [Option.some.injEq, Prod.mk.injEq] at h
      exact h.1.le

theorem findExact_le (doc : List Page) (text : String) (k p : Nat) (r : Rect)
    (h : findExact doc text k = some (p, r)) : k ≤ p :=
  findExactAux_le text (doc.drop k) k p r h

theorem fallbackPages_cases (doc : List Page) (p : Nat) (text : String) (q : Nat) (r : Rect)
    (h : fallbackPages doc p text = some (q, r)) : q = p ∨ q = p + 1 := by
  unfold fallbackPages at h
  rcases h1 : doc[p]?.bind fun pg => fallbackOnPage pg text with _ | r1
  · rw [h1] at h
    rcases h2 : doc[p+1]?.bind fun pg => fallbackOnPage pg text with _ | r2
    · rw [h2] at h
      exact absurd h (by simp)
    · rw [h2] at h
      simp only [Option.some.injEq, Prod.mk.injEq] at h
      exact Or.inr h.1.symm
  · rw [h1] at h
    simp only [Option.some.injEq, Prod.mk.injEq] at h
    exact Or.inl h.1.symm

theorem processLine_pageNum (doc : List Page) (s : LoopState) (line : String) :
    s.pageNum ≤ (processLine doc s line).1.pageNum ∧
    (∀ p, (processLine doc s line).2 = Outcome.matchedAt p →
      (processLine doc s line).1.pageNum = p) := by
  simp only [processLine]
  by_cases h0 : pyStrip (pyTake line 50) = ""
  · rw [if_pos h0]
    exact ⟨le_refl _, by intro p hp; simp at hp⟩
  · rw [if_neg h0]
    rcases hget : doc[s.pageNum]? with _ | pg
    · dsimp only
      exact ⟨le_refl _, by intro p hp; simp at hp⟩
    · dsimp only
      rcases hs1 : pg.searchFor (pyStrip (pyTake line 50)) with _ | ⟨r, rs⟩
      · dsimp only
        rcases hs2 : findExact doc (pyStrip (pyTake line 50)) (s.pageNum+1) with _ | pr
        · dsimp only
          rcases hs3 : fallbackPages doc s.pageNum (pyStrip (pyTake line 50)) with _ | pr
          · dsimp only
            exact ⟨le_refl _, by intro p hp; simp at hp⟩
          · obtain ⟨p, r⟩ := pr
            dsimp only
            refine ⟨?_, ?_⟩
            · rcases fallbackPages_cases doc s.pageNum _ p r hs3 with h | h <;> omega
            · intro p2 hp2
              simpa using hp2
        · obtain ⟨p, r⟩ := pr
          dsimp only
          refine ⟨?_, ?_⟩
          · have := findExact_le doc _ _ p r hs2
            omega
          · intro p2 hp2
            simpa using hp2
      · dsimp only
        refine ⟨?_, ?_⟩
        · rw [tickForMatch_pageNum]
        · intro p2 hp2
          have h2 : s.pageNum = p2 := by
            simpa using hp2
          rw [tickForMatch_pageNum, h2]

theorem runLines_pageNum_mono (doc : List Page) :
    ∀ (lines : List String) (s : LoopState), s.pageNum ≤ (runLines doc s lines).1.pageNum := by
  intro lines
  induction lines with
  | nil => intro s; exact le_refl _
  | cons line rest ih =>
    intro s
    simp only [runLines]
    split
    · exact le_trans (processLine_pageNum doc s line).1 (ih _)
    · exact le_refl _

theorem processLine_frame (doc doc2 : List Page) (s : LoopState) (line : String)
    (h : ∀ i, s.pageNum ≤ i → doc[i]? = doc2[i]?) :
    processLine doc s line = processLine doc2 s line := by
  have h0 : doc[s.pageNum]? = doc2[s.pageNum]? := h _ (le_refl _)
  have h1 : doc[s.pageNum + 1]? = doc2[s.pageNum + 1]? := h _ (Nat.le_succ _)
  have hdrop : doc.drop (s.pageNum + 1) = doc2.drop (s.pageNum + 1) := by
    apply List.ext_getElem?
    intro n
    rw [List.getElem?_drop, List.getElem?_drop]
    exact h _ (by omega)
  simp only [processLine, findExact, fallbackPages, h0, h1, hdrop]

theorem getElem?_mem_drop {α : Type} (l : List α) (n k : Nat) (a : α)
    (h : l[n + k]? = some a) : a ∈ l.drop n :=
  List.getElem?_mem (show (l.drop n)[k]? = some a from by rw [List.getElem?_drop]; exact h)

theorem findExactAux_none (text : String) :
    ∀ (pages : List Page) (base : Nat),
      (∀ pg ∈ pages, pg.searchFor text = []) → findExactAux text pages base = none := by
  intro pages
  induction pages with
  | nil => intro base _; rfl
  | cons pg rest ih =>
    intro base h
    rw [findExactAux, h pg (List.mem_cons_self _ _)]
    exact ih (base+1) (fun u hu => h u (List.mem_cons_of_mem _ hu))

theorem findExact_none (doc : List Page) (text : String) (n : Nat)
    (h : ∀ pg ∈ doc.drop n, pg.searchFor text = []) :
    findExact doc text n = none :=
  findExactAux_none text (doc.drop n) n h

theorem drop_succ_subset {α : Type} (l : List α) (n : Nat) :
    l.drop (n + 1) ⊆ l.drop n := by
  rw [← List.drop_drop]
  exact List.drop_subset _ _

theorem processLine_unmatched (doc : List Page) (s : LoopState) (line : String)
    (h0 : pyStrip (pyTake line 50) ≠ "")
    (h1 : ∀ pg ∈ doc.drop s.pageNum, pg.searchFor (pyStrip (pyTake line 50)) = [])
    (h2 : ∀ pg ∈ doc.drop s.pageNum, fallbackOnPage pg (pyStrip (pyTake line 50)) = none) :
    processLine doc s line = (s, Outcome.unmatched) := by
  simp only [processLine]
  rw [if_neg h0]
  rcases hget : doc[s.pageNum]? with _ | pg
  · rfl
  · dsimp only
    have hmem0 : pg ∈ doc.drop s.pageNum :=
      getElem?_mem_drop doc s.pageNum 0 pg (by simpa using hget)
    rw [h1 pg hmem0]
    have hfe : findExact doc (pyStrip (pyTake line 50)) (s.pageNum + 1) = none := by
      apply findExact_none
      intro u hu
      exact h1 u (drop_succ_subset doc s.pageNum hu)
    rw [hfe]
    have e1 : (doc[s.pageNum]?.bind fun pg2 =>
        fallbackOnPage pg2 (pyStrip (pyTake line 50))) = none := by
      rw [hget]
      simpa using h2 pg hmem0
    have e2 : (doc[s.pageNum + 1]?.bind fun pg2 =>
        fallbackOnPage pg2 (pyStrip (pyTake line 50))) = none := by
      rcases hg : doc[s.pageNum + 1]? with _ | p1
      · rfl
      · have : p1 ∈ doc.drop s.pageNum := getElem?_mem_drop doc s.pageNum 1 p1 hg
        simpa using h2 p1 this
    have hfb : fallbackPages doc s.pageNum (pyStrip (pyTake line 50)) = none := by
      unfold fallbackPages
      rw [e1, e2]
    rw [hfb]

theorem insert_tick_wf (pageIdx : Nat) (x0 y0 : ℚ) (s : LoopState) (h : wfTicks s) :
    wfTicks (insert_tick pageIdx x0 y0 s).1 := by
  obtain ⟨hmem, hnd⟩ := h
  simp only [insert_tick]
  by_cases hk : pyRound1 (y0 + 10) ∈ s.placed
  · rw [if_pos hk]
    exact ⟨hmem, hnd⟩
  · rw [if_neg hk]
    constructor
    · intro t ht
      simp only [List.mem_append, List.mem_singleton] at ht
      rcases ht with ht | ht
      · exact List.mem_cons_of_mem _ (hmem t ht)
      · subst ht
        exact List.mem_cons_self _ _
    · rw [List.map_append]
      refine List.Nodup.append hnd (List.nodup_singleton _) ?_
      intro a ha
      simp only [List.mem_map] at ha
      obtain ⟨t, ht, hkey⟩ := ha
      simp only [List.map_cons, List.map_nil, List.mem_singleton]
      intro heq
      apply hk
      rw [← heq, ← hkey]
      exact hmem t ht

theorem placed_grow_wf (s : LoopState) (k : ℚ) (h : wfTicks s) :
    wfTicks { s with placed := k :: s.placed } :=
  ⟨fun t ht => List.mem_cons_of_mem _ (h.1 t ht), h.2⟩

theorem tickForMatch_wf (pageIdx : Nat) (r : Rect) (s : LoopState) (h : wfTicks s) :
    wfTicks (tickForMatch pageIdx r s) := by
  simp only [tickForMatch]
  split
  · exact h
  · exact placed_grow_wf _ _ (insert_tick_wf pageIdx r.x0 r.y0 s h)

theorem processLine_wf (doc : List Page) (s : LoopState) (line : String) (h : wfTicks s) :
    wfTicks (processLine doc s line).1 := by
  simp only [processLine]
  by_cases h0 : pyStrip (pyTake line 50) = ""
  · rw [if_pos h0]
    exact h
  · rw [if_neg h0]
    rcases hget : doc[s.pageNum]? with _ | pg
    · exact h
    · dsimp only
      rcases hs1 : pg.searchFor (pyStrip (pyTake line 50)) with _ | ⟨r, rs⟩
      · dsimp only
        rcases hs2 : findExact doc (pyStrip (pyTake line 50)) (s.pageNum+1) with _ | pr
        · dsimp only
          rcases hs3 : fallbackPages doc s.pageNum (pyStrip (pyTake line 50)) with _ | pr
          · exact h
          · obtain ⟨p, r⟩ := pr
            exact tickForMatch_wf p r s h
        · obtain ⟨p, r⟩ := pr
          exact tickForMatch_wf p r s h
      · exact tickForMatch_wf s.pageNum r s h

theorem runLines_wf (doc : List Page) :
    ∀ (lines : List String) (s : LoopState), wfTicks s → wfTicks (runLines doc s lines).1 := by
  intro lines
  induction lines with
  | nil => intro s h; exact h
  | cons line rest ih =>
    intro s h
    simp only [runLines]
    split
    · exact ih _ (processLine_wf doc s line h)
    · exact h

theorem initLoopState_wf : wfTicks initLoopState :=
  ⟨fun t ht => absurd ht (List.not_mem_nil t), List.nodup_nil⟩

theorem processLine_dedup (doc : List Page) (s : LoopState) (line : String) (pg : Page)
    (r : Rect) (rs : List Rect)
    (h0 : pyStrip (pyTake line 50) ≠ "")
    (hget : doc[s.pageNum]? = some pg)
    (hsearch : pg.searchFor (pyStrip (pyTake line 50)) = r :: rs)
    (hkey : pyRound1 ((r.y0 + r.y1) / 2) ∈ s.placed) :
    processLine doc s line = (s, Outcome.matchedAt s.pageNum) := by
  simp only [processLine]
  rw [if_neg h0, hget]
  dsimp only
  rw [hsearch]
  dsimp only
  simp only [tickForMatch]
  rw [if_pos hkey]

theorem fallbackGo_spec (pg : Page) :
    ∀ (ws : List String) (hits : List Rect), hits.length < 4 →
      fallbackGo pg ws hits =
        (if 4 ≤ (hits ++ hitsOf pg ws).length then (hits ++ hitsOf pg ws).head? else none) := by
  intro ws
  induction ws with
  | nil =>
    intro hits hlt
    simp only [fallbackGo, hitsOf, List.filterMap_nil, List.append_nil]
    rw [if_neg (by omega)]
  | cons w ws ih =>
    intro hits hlt
    simp only [fallbackGo]
    rcases hsw : pg.searchFor w with _ | ⟨r, rs⟩
    · have hh : hitsOf pg (w :: ws) = hitsOf pg ws := by
        simp [hitsOf, hsw]
      rw [hh]
      dsimp only
      rw [if_neg (show ¬ 4 ≤ hits.length by omega)]
      exact ih hits hlt
    · have hh : hitsOf pg (w :: ws) = r :: hitsOf pg ws := by
        simp [hitsOf, hsw]
      rw [hh]
      dsimp only
      by_cases h4 : 4 ≤ (hits ++ [r]).length
      · rw [if_pos h4]
        rw [if_pos (show 4 ≤ (hits ++ r :: hitsOf pg ws).length by
          simp only [List.length_append, List.length_cons, List.length_nil] at h4 ⊢
          omega)]
        cases hits with
        | nil => rfl
        | cons a as => rfl
      · rw [if_neg h4]
        have he : hits ++ r :: hitsOf pg ws = (hits ++ [r]) ++ hitsOf pg ws := by
          simp
        rw [he]
        exact ih (hits ++ [r]) (by simp only [List.length_append, List.length_cons, List.length_nil] at h4 ⊢; omega)

theorem fallbackOnPage_spec (pg : Page) (text : String) :
    fallbackOnPage pg text =
      (if 4 ≤ (hitsOf pg (tokenize text)).length then (hitsOf pg (tokenize text)).head?
       else none) := by
  have h := fallbackGo_spec pg (tokenize text) [] (by simp)
  simpa [fallbackOnPage] using h

theorem processLine_fallback_unmatched (doc : List Page) (s : LoopState) (line : String)
    (h0 : pyStrip (pyTake line 50) ≠ "")
    (h1 : ∀ pg ∈ doc.drop s.pageNum, pg.searchFor (pyStrip (pyTake line 50)) = [])
    (h2 : ∀ pg ∈ doc.drop s.pageNum,
      (hitsOf pg (tokenize (pyStrip (pyTake line 50)))).length < 4) :
    processLine doc s line = (s, Outcome.unmatched) := by
  apply processLine_unmatched doc s line h0 h1
  intro pg hpg
  rw [fallbackOnPage_spec]
  rw [if_neg (Nat.not_le.mpr (h2 pg hpg))]

theorem processLine_fallback_matched (doc : List Page) (s : LoopState) (line : String)
    (pg : Page) (r : Rect)
    (h0 : pyStrip (pyTake line 50) ≠ "")
    (hget : doc[s.pageNum]? = some pg)
    (h1 : ∀ pg2 ∈ doc.drop s.pageNum, pg2.searchFor (pyStrip (pyTake line 50)) = [])
    (h4 : 4 ≤ (hitsOf pg (tokenize (pyStrip (pyTake line 50)))).length)
    (hr : (hitsOf pg (tokenize (pyStrip (pyTake line 50)))).head? = some r) :
    processLine doc s line = (tickForMatch s.pageNum r s, Outcome.matchedAt s.pageNum) := by
  have hmem0 : pg ∈ doc.drop s.pageNum :=
    getElem?_mem_drop doc s.pageNum 0 pg (by simpa using hget)
  simp only [processLine]
  rw [if_neg h0, hget]
  dsimp only
  rw [h1 pg hmem0]
  dsimp only
  have hfe : findExact doc (pyStrip (pyTake line 50)) (s.pageNum + 1) = none := by
    apply findExact_none
    intro u hu
    exact h1 u (drop_succ_subset doc s.pageNum hu)
  rw [hfe]
  dsimp only
  have hfb : fallbackPages doc s.pageNum (pyStrip (pyTake line 50)) = some (s.pageNum, r) := by
    unfold fallbackPages
    have e1 : (doc[s.pageNum]?.bind fun pg2 =>
        fallbackOnPage pg2 (pyStrip (pyTake line 50))) = some r := by
      rw [hget]
      show fallbackOnPage pg (pyStrip (pyTake line 50)) = some r
      rw [fallbackOnPage_spec, if_pos h4]
      exact hr
    rw [e1]
  rw [hfb]
  dsimp only
  rw [loopState_update_pageNum _ _ (tickForMatch_pageNum s.pageNum r s)]

/-! ## C1: forward-only page pointer -/

/-- C1: over the whole tick pass the page pointer never decreases (per
line and over any line list); a line matched on page p leaves the pointer
exactly at p (which is at or past the previous pointer); the processing of
a line depends only on the pages at indices at or past the pointer, so no
tier ever searches a page before a previously matched one; and a line with
no exact hit and no fallback success at or past the pointer — in
particular one whose only occurrence lies on an earlier page — ends
unmatched with the state untouched, rather than mismatched. -/
theorem c1_forward_only_pointer :
    (∀ (doc : List Page) (s : LoopState) (line : String),
        s.pageNum ≤ (processLine doc s line).1.pageNum) ∧
    (∀ (doc : List Page) (s : LoopState) (lines : List String),
        s.pageNum ≤ (runLines doc s lines).1.pageNum) ∧
    (∀ (doc : List Page) (s : LoopState) (line : String) (p : Nat),
        (processLine doc s line).2 = Outcome.matchedAt p →
        (processLine doc s line).1.pageNum = p ∧ s.pageNum ≤ p) ∧
    (∀ (doc doc2 : List Page) (s : LoopState) (line : String),
        (∀ i, s.pageNum ≤ i → doc[i]? = doc2[i]?) →
        processLine doc s line = processLine doc2 s line) ∧
    (∀ (doc : List Page) (s : LoopState) (line : String),
        pyStrip (pyTake line 50) ≠ "" →
        (∀ pg ∈ doc.drop s.pageNum, pg.searchFor (pyStrip (pyTake line 50)) = []) →
        (∀ pg ∈ doc.drop s.pageNum, fallbackOnPage pg (pyStrip (pyTake line 50)) = none) →
        processLine doc s line = (s, Outcome.unmatched)) := by
  refine ⟨?_, ?_, ?_, ?_, ?_⟩
  · intro doc s line
    exact (processLine_pageNum doc s line).1
  · intro doc s lines
    exact runLines_pageNum_mono doc lines s
  · intro doc s line p h
    exact ⟨(processLine_pageNum doc s line).2 p h,
      le_trans (processLine_pageNum doc s line).1
        (le_of_eq ((processLine_pageNum doc s line).2 p h))⟩
  · exact processLine_frame
  · exact processLine_unmatched

/-- C1 witness: with the pointer already at page 1 and the line occurring
verbatim only on page 0, the line ends unmatched and nothing changes. -/
theorem c1_forward_only_pointer_witness :
    processLine [pgEarly, pgBlank] stC1 "only early" = (stC1, Outcome.unmatched) ∧
    pgEarly.searchFor (pyStrip (pyTake "only early" 50)) = [rectL] :=
  ⟨c1_forward_only_pointer.2.2.2.2 [pgEarly, pgBlank] stC1 "only early"
      (by decide) (by decide) (by decide),
    rfl⟩

/-! ## C2: the fallback word-match tier -/

/-- C2 (counterexample): on a page bearing only the three distinct words
`aa`, `bb`, `cc`, the line `"aa bb aa cc"` — whose token list repeats
`aa` — is fallback-matched and ticked although only 3 distinct words
produce hits, because the loop counts token hits with multiplicity; the
claim's "4 or more distinct words" reading would leave this line
unmatched with no tick. -/
theorem c2_fallback_counterexample :
    ((tokenize (pyStrip (pyTake "aa bb aa cc" 50))).dedup.filter
        (fun w => !(pgWords.searchFor w).isEmpty)).length = 3 ∧
    (processLine [pgWords] initLoopState "aa bb aa cc").2 = Outcome.matchedAt 0 ∧
    ((processLine [pgWords] initLoopState "aa bb aa cc").1.ticks).isEmpty = false := by
  refine ⟨by decide, rfl, rfl⟩

/-- C2 (amended): in the fallback tier each token of the 50-character
stripped prefix is searched in order and contributes the first rectangle
of its hits; the tier on a page succeeds exactly when 4 token hits are
collected — tokens counted with multiplicity, so a repeated word can
contribute several hits — anchoring at the first collected rectangle;
when the exact tiers fail and both candidate pages collect fewer than 4
token hits, no tick is placed and the line is unmatched; when the current
page collects 4 or more, the line is matched there and the tick
bookkeeping runs on the first hit. -/
theorem c2_fallback_threshold :
    (∀ (pg : Page) (text : String),
        fallbackOnPage pg text =
          (if 4 ≤ (hitsOf pg (tokenize text)).length then (hitsOf pg (tokenize text)).head?
           else none)) ∧
    (∀ (doc : List Page) (s : LoopState) (line : String),
        pyStrip (pyTake line 50) ≠ "" →
        (∀ pg ∈ doc.drop s.pageNum, pg.searchFor (pyStrip (pyTake line 50)) = []) →
        (∀ pg ∈ doc.drop s.pageNum,
          (hitsOf pg (tokenize (pyStrip (pyTake line 50)))).length < 4) →
        processLine doc s line = (s, Outcome.unmatched)) ∧
    (∀ (doc : List Page) (s : LoopState) (line : String) (pg : Page) (r : Rect),
        pyStrip (pyTake line 50) ≠ "" →
        doc[s.pageNum]? = some pg →
        (∀ pg2 ∈ doc.drop s.pageNum, pg2.searchFor (pyStrip (pyTake line 50)) = []) →
        4 ≤ (hitsOf pg (tokenize (pyStrip (pyTake line 50)))).length →
        (hitsOf pg (tokenize (pyStrip (pyTake line 50)))).head? = some r →
        processLine doc s line = (tickForMatch s.pageNum r s, Outcome.matchedAt s.pageNum)) :=
  ⟨fallbackOnPage_spec, processLine_fallback_unmatched, processLine_fallback_matched⟩

/-- C2 witness: a four-token line with hits for only three of its tokens
collects 3 < 4 hits on the only candidate page and ends unmatched. -/
theorem c2_fallback_threshold_witness :
    processLine [pgWords] initLoopState "aa bb cc dd" = (initLoopState, Outcome.unmatched) :=
  c2_fallback_threshold.2.1 [pgWords] initLoopState "aa bb cc dd"
    (by decide) (by decide) (by decide)

/-! ## C3: tick deduplication by rounded mid-y -/

/-- C3: a line whose first match rectangle has a rounded mid-y already in
the registry places no tick and leaves the state untouched, yet still
counts as matched (pointer progression continues); the tick registry is
well-formed throughout any run (every drawn tick's rounded y is
registered, no two drawn ticks share a rounded y); and processing the
same line list a second time over the same document state — the registry
surviving, the pointer rewound — still leaves the drawn ticks' rounded
y-positions pairwise distinct, so no duplicate tick is ever placed at an
already-ticked rounded y. -/
theorem c3_tick_dedup :
    (∀ (doc : List Page) (s : LoopState) (line : String) (pg : Page) (r : Rect)
        (rs : List Rect),
        pyStrip (pyTake line 50) ≠ "" →
        doc[s.pageNum]? = some pg →
        pg.searchFor (pyStrip (pyTake line 50)) = r :: rs →
        pyRound1 ((r.y0 + r.y1) / 2) ∈ s.placed →
        processLine doc s line = (s, Outcome.matchedAt s.pageNum)) ∧
    (∀ (doc : List Page) (s : LoopState) (lines : List String),
        wfTicks s → wfTicks (runLines doc s lines).1) ∧
    (∀ (doc : List Page) (cells : List Cell),
        (((runLines doc
            { (annotate_correct_lines doc cells).1 with pageNum := 0 }
            (flattenLines cells)).1.ticks).map fun t => pyRound1 t.y).Nodup) := by
  refine ⟨processLine_dedup, ?_, ?_⟩
  · intro doc s lines h
    exact runLines_wf doc lines s h
  · intro doc cells
    have h1 : wfTicks (annotate_correct_lines doc cells).1 :=
      runLines_wf doc (flattenLines cells) initLoopState initLoopState_wf
    have h2 : wfTicks { (annotate_correct_lines doc cells).1 with pageNum := 0 } :=
      ⟨h1.1, h1.2⟩
    exact (runLines_wf doc (flattenLines cells) _ h2).2

/-- C3 witness: with 12.5 already in the registry, a match whose rectangle
has mid-y 12.52 (rounding to 12.5) adds nothing and draws nothing, but the
line still counts as matched on the current page. -/
theorem c3_tick_dedup_witness :
    processLine [pgC3] stC3 "hello" = (stC3, Outcome.matchedAt 0) :=
  c3_tick_dedup.1 [pgC3] stC3 "hello" pgC3 rectC3 [] (by decide) rfl rfl
    (by
      show pyRound1 ((12.5 + 12.54) / 2) ∈ [(12.5 : ℚ)]
      have he : pyRound1 ((12.5 + 12.54) / 2) = 12.5 := by
        norm_num [pyRound1, roundHalfEven]
      rw [he]
      exact List.mem_singleton.mpr rfl)
